import Mathlib

/-!
Shallow embedding of the configuration subsystem of gracenote2epg
(`src/gracenote2epg/config/`): `validation.py`, `retention.py`,
`settings.py`, `migration.py`, `lineup.py`, and the orchestration in
`base.py`, together with proofs about the frozen claims on it.

Python strings are modelled as Lean `String` (in this toolchain a
structure over `List Char`); the Python `str` methods used by the
source (`strip`, `lower`, `upper`, `replace(" ", "")`, `split(",")`,
`endswith`, `startswith`, `int(...)`, `str(...)`) are re-implemented
below at the character-list level with ASCII semantics, so that every
definition evaluates inside the kernel.  Settings dictionaries are
association lists; Python dict insertion order is preserved by the
translation.  A Python function that can raise is modelled with
`Except`.
-/

namespace GN

/-- ASCII whitespace stripped by Python `str.strip()` (space, tab,
newline, carriage return, vertical tab, form feed). -/
def isPySpace (c : Char) : Bool :=
  c.toNat = 32 ∨ c.toNat = 9 ∨ c.toNat = 10 ∨ c.toNat = 13 ∨ c.toNat = 11 ∨ c.toNat = 12

/-- `str.strip()` on the underlying character list. -/
def stripChars (cs : List Char) : List Char :=
  ((cs.dropWhile isPySpace).reverse.dropWhile isPySpace).reverse

/-- Python `s.strip()`. -/
def pyStrip (s : String) : String := ⟨stripChars s.data⟩

/-- ASCII lower-casing of one character, as Python `str.lower()` does on ASCII. -/
def lowerChar (c : Char) : Char :=
  if 65 ≤ c.toNat ∧ c.toNat ≤ 90 then Char.ofNat (c.toNat + 32) else c

/-- ASCII upper-casing of one character, as Python `str.upper()` does on ASCII. -/
def upperChar (c : Char) : Char :=
  if 97 ≤ c.toNat ∧ c.toNat ≤ 122 then Char.ofNat (c.toNat - 32) else c

/-- Python `s.lower()` (ASCII model). -/
def pyLower (s : String) : String := ⟨s.data.map lowerChar⟩

/-- Python `s.upper()` (ASCII model). -/
def pyUpper (s : String) : String := ⟨s.data.map upperChar⟩

/-- Python `s.replace(" ", "")`. -/
def removeSpaces (s : String) : String := ⟨s.data.filter (fun c => !(c = ' '))⟩

/-- Python `s.endswith(p)`. -/
def endsS (s p : String) : Bool := decide (s.data.reverse.take p.data.length = p.data.reverse)

/-- Python `s.startswith(p)`. -/
def startsS (s p : String) : Bool := decide (s.data.take p.data.length = p.data)

/-- Python `s[n:]`. -/
def dropChars (s : String) (n : Nat) : String := ⟨s.data.drop n⟩

/-- Python `s[:n]`. -/
def takeChars (s : String) (n : Nat) : String := ⟨s.data.take n⟩

/-- The regex class `[0-9]`. -/
def isDigitChar (c : Char) : Bool := 48 ≤ c.toNat ∧ c.toNat ≤ 57

/-- The regex class `[A-Z]`. -/
def isUpperAZ (c : Char) : Bool := 65 ≤ c.toNat ∧ c.toNat ≤ 90

/-- The regex class `[A-Z0-9]`. -/
def isAlnumUpper (c : Char) : Bool := isDigitChar c ∨ isUpperAZ c

/-- Decimal value of a digit run (most significant digit first). -/
def digitsToNat (cs : List Char) : Nat := cs.foldl (fun a c => a * 10 + (c.toNat - 48)) 0

/-- A nonempty all-digit run parses to its decimal value. -/
def digitsVal (cs : List Char) : Option Nat :=
  if cs ≠ [] ∧ cs.all isDigitChar then some (digitsToNat cs) else none

/-- Python `int(s)`: surrounding whitespace tolerated, one optional
sign, then a nonempty digit run (digit-group underscores are not
modelled). `none` models the raised `ValueError`. -/
def pyInt? (s : String) : Option Int :=
  if (stripChars s.data).head? = some '-' then
    (digitsVal (stripChars s.data).tail).map (fun n => -(n : Int))
  else if (stripChars s.data).head? = some '+' then
    (digitsVal (stripChars s.data).tail).map (fun n => (n : Int))
  else (digitsVal (stripChars s.data)).map (fun n => (n : Int))

/-- The decimal digit character for `n % 10`-style arguments. -/
def digitChar (n : Nat) : Char :=
  match n with
  | 0 => '0' | 1 => '1' | 2 => '2' | 3 => '3' | 4 => '4'
  | 5 => '5' | 6 => '6' | 7 => '7' | 8 => '8' | _ => '9'

/-- Fuelled decimal rendering of a natural number (fuel keeps the
recursion structural so the kernel can evaluate it). -/
def natDigitsF : Nat → Nat → List Char
  | 0, _ => []
  | f + 1, n => if n < 10 then [digitChar n] else natDigitsF f (n / 10) ++ [digitChar (n % 10)]

/-- Decimal digits of a natural number, most significant first. -/
def natDigits (n : Nat) : List Char := natDigitsF (n + 1) n

/-- Python `str(i)` for an `int`. -/
def intToStr (i : Int) : String :=
  if i < 0 then ⟨'-' :: natDigits i.natAbs⟩ else ⟨natDigits i.natAbs⟩

/-- Code-point lexicographic strict order on character lists (what
Python string `<` computes on ASCII). -/
def lexLt : List Char → List Char → Bool
  | [], [] => false
  | [], _ :: _ => true
  | _ :: _, [] => false
  | a :: as, b :: bs =>
    if a.toNat < b.toNat then true else if b.toNat < a.toNat then false else lexLt as bs

/-- `a <= b` in Python string order. -/
def strLe (a b : String) : Bool := !(lexLt b.data a.data)

/-- Insert into a sorted list (helper for `sortStr`). -/
def insortS (x : String) : List String → List String
  | [] => [x]
  | y :: ys => if strLe x y then x :: y :: ys else y :: insortS x ys

/-- Python `sorted` on strings (insertion sort; agrees with `sorted`
on lists of distinct strings). -/
def sortStr : List String → List String
  | [] => []
  | x :: xs => insortS x (sortStr xs)

/-- Helper for `pySplitComma`: the accumulator holds the current field
reversed. -/
def splitCommaAux : List Char → List Char → List (List Char)
  | [], acc => [acc.reverse]
  | c :: rest, acc =>
    if c = ',' then acc.reverse :: splitCommaAux rest [] else splitCommaAux rest (c :: acc)

/-- Python `s.split(",")`. -/
def pySplitComma (s : String) : List String :=
  (splitCommaAux s.data []).map (fun cs => (⟨cs⟩ : String))

/-! ## Settings dictionaries

The in-memory settings dictionary of the source is string-keyed; for
the validation functions (which all act on string-valued settings) it
is modelled as an association list of strings.  `getD` is Python
`dict.get(k, d)`; `setKey` is Python `d[k] = v` (in-place value update
keeps the key position, a fresh key is appended, as in a Python dict).
-/

abbrev Settings := List (String × String)

/-- Python dict lookup `d[k]` / `k in d` on an association list. -/
def dget {β : Type} : List (String × β) → String → Option β
  | [], _ => none
  | (k', v) :: t, k => if k' = k then some v else dget t k

def getD (s : Settings) (k d : String) : String := (dget s k).getD d

/-- Python `d[k] = v` on an association list. -/
def dinsert {β : Type} : List (String × β) → String → β → List (String × β)
  | [], k, v => [(k, v)]
  | (k', v') :: t, k, v => if k' = k then (k', v) :: t else (k', v') :: dinsert t k v

def setKey (s : Settings) (k v : String) : Settings := dinsert s k v

/-- Python dict built from a sequence of `(key, value)` pairs:
first-occurrence key order, last value wins. -/
def toDict {β : Type} (items : List (String × β)) : List (String × β) :=
  items.foldl (fun m kv => dinsert m kv.1 kv.2) []

/-! ## `config/validation.py` -/

/-- The recognised setting ids, in declaration order
(`ConfigValidator.VALID_SETTINGS`). -/
def VALID_IDS : List String :=
  ["zipcode", "lineupid", "days", "slist", "stitle", "xdetails", "xdesc", "langdetect",
   "epgenre", "epicon", "tvhoff", "usern", "passw", "tvhurl", "tvhport", "tvhmatch",
   "chmatch", "redays", "refresh", "logrotate", "relogs", "rexmltv"]

/-- The ids whose declared type in `VALID_SETTINGS` is `bool`; all
others are `str`. -/
def BOOL_IDS : List String :=
  ["stitle", "xdetails", "xdesc", "langdetect", "tvhoff", "tvhmatch", "chmatch"]

/-- The regex `^[A-Z][0-9][A-Z][0-9][A-Z][0-9]$` (Canadian postal code
on an already upper-cased string). -/
def isCanPostal (l : String) : Bool :=
  match l.data with
  | [a, b, c, d, e, f] =>
    isUpperAZ a ∧ isDigitChar b ∧ isUpperAZ c ∧ isDigitChar d ∧ isUpperAZ e ∧ isDigitChar f
  | _ => false

/-- The regex `^[0-9]{5}$` (US ZIP). -/
def isUsZip (l : String) : Bool := l.data.length = 5 ∧ l.data.all isDigitChar

/-- `ConfigValidator.extract_location_from_lineupid`: match the
case-insensitive regex `^(CAN|USA)-OTA([A-Z0-9]+)(?:-DEFAULT)?$` on the
stripped lineup id, then validate the captured location per country;
a Canadian postal code is returned re-formatted as `A1A 1A1`.
Case-insensitive matching is modelled by upper-casing first, which is
equivalent for this ASCII pattern; the optional `-DEFAULT` tail of the
regex corresponds to removing one trailing `-DEFAULT` before checking
that the remaining run is nonempty and alphanumeric. -/
def extract_location_from_lineupid (lineupid : String) : Option String :=
  let u := pyUpper (pyStrip lineupid)
  if startsS u "CAN-OTA" then
    let r := dropChars u 7
    let loc := if endsS r "-DEFAULT" then takeChars r (r.data.length - 8) else r
    if loc.data ≠ [] ∧ loc.data.all isAlnumUpper ∧ isCanPostal loc
    then some (takeChars loc 3 ++ " " ++ dropChars loc 3) else none
  else if startsS u "USA-OTA" then
    let r := dropChars u 7
    let loc := if endsS r "-DEFAULT" then takeChars r (r.data.length - 8) else r
    if loc.data ≠ [] ∧ loc.data.all isAlnumUpper ∧ isUsZip loc
    then some loc else none
  else none

/-- `ConfigValidator.validate_config_consistency`.  `Except.error`
models the raised `ValueError` (nothing has been written to the
dictionary when it is raised); `Except.ok` returns the (possibly
updated) settings and the `changes` dict. -/
def validate_config_consistency (settings : Settings) :
    Except String (Settings × List (String × String)) :=
  if pyLower (pyStrip (getD settings "lineupid" "auto")) ≠ "auto" then
    match extract_location_from_lineupid (pyStrip (getD settings "lineupid" "auto")) with
    | some extracted =>
      if pyStrip (getD settings "zipcode" "") ≠ "" then
        if pyUpper (removeSpaces extracted) ≠
            pyUpper (removeSpaces (pyStrip (getD settings "zipcode" ""))) then
          .error ("Configuration mismatch: zipcode " ++ pyStrip (getD settings "zipcode" "") ++
            " conflicts with lineupid " ++ pyStrip (getD settings "lineupid" "auto") ++
            " (contains " ++ removeSpaces extracted ++
            "). Either use auto-detection with zipcode or ensure consistency.")
        else .ok (settings, [])
      else
        .ok (setKey settings "zipcode" (removeSpaces extracted),
          [("zipcode", "(empty) → " ++ removeSpaces extracted ++ " (extracted from " ++
            pyStrip (getD settings "lineupid" "auto") ++ ")")])
    | none => .ok (settings, [])
  else .ok (settings, [])

/-- `ConfigValidator.validate_refresh_hours`: out-of-range `[0, 168]`
or unparsable values are replaced by `"48"`; the `int` exception is
caught, so the function always returns. -/
def validate_refresh_hours (settings : Settings) : Settings :=
  match pyInt? (getD settings "refresh" "48") with
  | some h => if h < 0 ∨ 168 < h then setKey settings "refresh" "48" else settings
  | none => setKey settings "refresh" "48"

/-- `validate_retention_value` (identical in `validation.py` and
`retention.py`): a number in `[0, 3650]`, or one of the period words
(case-insensitively). -/
def validate_retention_value (value : String) : Bool :=
  if value = "" then false
  else
    match pyInt? value with
    | some d => 0 ≤ d ∧ d ≤ 3650
    | none => pyLower value ∈ ["weekly", "monthly", "quarterly", "unlimited"]

/-- The `logrotate` step of `validate_cache_and_retention_policies`:
the lowered and stripped value is kept when it is a valid rotation,
otherwise `"true"` is substituted. -/
def validateLogrotate (settings : Settings) : Settings :=
  if pyStrip (pyLower (getD settings "logrotate" "true")) ∈
      ["true", "false", "daily", "weekly", "monthly"]
  then setKey settings "logrotate" (pyStrip (pyLower (getD settings "logrotate" "true")))
  else setKey settings "logrotate" "true"

/-- The `relogs` step of `validate_cache_and_retention_policies`:
invalid retention values are replaced by `"30"`, valid ones left as
they are in the dictionary. -/
def validateRelogs (settings : Settings) : Settings :=
  if validate_retention_value (pyStrip (getD settings "relogs" "30")) then settings
  else setKey settings "relogs" "30"

/-- The `rexmltv` step of `validate_cache_and_retention_policies`:
invalid retention values are replaced by `"7"`. -/
def validateRexmltv (settings : Settings) : Settings :=
  if validate_retention_value (pyStrip (getD settings "rexmltv" "7")) then settings
  else setKey settings "rexmltv" "7"

/-- The `redays >= days` step of `validate_cache_and_retention_policies`.
The source wraps `int(days)`/`int(redays)` in `try`, but the handler
re-runs `int(settings.get("days", "1"))`, so an unparsable `days`
raises out of the handler: that is the `.error` case.  An unparsable
`redays` (or `redays < days`) sets `redays` to `str(days)`. -/
def validateRedays (settings : Settings) : Except String Settings :=
  match pyInt? (getD settings "days" "1") with
  | none => .error "ValueError: invalid literal for int"
  | some d =>
    match pyInt? (getD settings "redays" (intToStr d)) with
    | none => .ok (setKey settings "redays" (intToStr d))
    | some rd => if rd < d then .ok (setKey settings "redays" (intToStr d)) else .ok settings

/-- `validate_cache_and_retention_policies` (identical in
`retention.py` and `validation.py`): logrotate, relogs, rexmltv, then
the redays step. -/
def validate_cache_and_retention_policies (settings : Settings) : Except String Settings :=
  validateRedays (validateRexmltv (validateRelogs (validateLogrotate settings)))

/-- A coerced configuration value: the two types appearing in
`VALID_SETTINGS` are `str` and `bool`. -/
inductive Value where
  | VStr : String → Value
  | VBool : Bool → Value
deriving DecidableEq, Repr

/-- `ConfigValidator.parse_boolean` on a parsed XML value (a string or
Python `None`). -/
def parse_boolean (v : Option String) : Bool :=
  match v with
  | none => false
  | some s => pyLower s ∈ ["true", "1", "yes", "on"]

/-- `ConfigValidator.validate_setting_type`: booleans via
`parse_boolean`, strings with `None` mapped to `""`; unknown ids are
returned unchanged (`Sum.inr`). -/
def validate_setting_type (id : String) (raw : Option String) : Sum Value (Option String) :=
  if id ∈ VALID_IDS then
    if id ∈ BOOL_IDS then .inl (.VBool (parse_boolean raw)) else .inl (.VStr (raw.getD ""))
  else .inr raw

/-! ## `config/retention.py` -/

/-- `RetentionManager._parse_retention_to_days`. -/
def parse_retention_to_days (retention_value interval : String) : Int :=
  match pyInt? (pyLower (pyStrip retention_value)) with
  | some n => n
  | none =>
    if pyLower (pyStrip retention_value) = "weekly" then 7
    else if pyLower (pyStrip retention_value) = "monthly" then 30
    else if pyLower (pyStrip retention_value) = "quarterly" then 90
    else if pyLower (pyStrip retention_value) = "unlimited" then 0
    else if interval = "daily" then 30
    else if interval = "weekly" then 90
    else if interval = "monthly" then 365
    else 30

/-- `RetentionManager._days_to_keep_files`; Python `//` is floor
division, hence `Int.fdiv`. -/
def days_to_keep_files (retention_days : Int) (interval : String) : Int :=
  if retention_days = 0 then 0
  else if interval = "daily" then retention_days
  else if interval = "weekly" then max 1 (Int.fdiv retention_days 7)
  else if interval = "monthly" then max 1 (Int.fdiv retention_days 30)
  else retention_days

/-! ## `config/lineup.py` -/

/-- `LineupManager.normalize_lineup_id`. -/
def normalize_lineup_id (lineupid country postal_code : String) : String :=
  if lineupid = "" ∨ pyLower lineupid = "auto" then
    country ++ "-OTA" ++ postal_code ++ "-DEFAULT"
  else if ¬ endsS lineupid "-DEFAULT" ∧ ¬ endsS lineupid "-X" then lineupid ++ "-DEFAULT"
  else lineupid

/-! ## `config/settings.py` -/

/-- `SettingsManager.SETTINGS_ORDER` (the checker's canonical order). -/
def SETTINGS_ORDER : List String :=
  ["zipcode", "lineupid", "days", "slist", "stitle", "xdetails", "xdesc", "langdetect",
   "epgenre", "epicon", "tvhoff", "usern", "passw", "tvhurl", "tvhport", "tvhmatch",
   "chmatch", "redays", "refresh", "logrotate", "relogs", "rexmltv"]

/-- The section field order of `write_clean_config`, flattened: this
is the order the writer actually emits (note the TVheadend section
puts `usern`/`passw` after `chmatch`, unlike `SETTINGS_ORDER`). -/
def WRITE_ORDER : List String :=
  ["zipcode", "lineupid", "days", "slist", "stitle", "xdetails", "xdesc", "langdetect",
   "epgenre", "epicon", "tvhoff", "tvhurl", "tvhport", "tvhmatch", "chmatch", "usern",
   "passw", "redays", "refresh", "logrotate", "relogs", "rexmltv"]

/-- `SettingsManager.check_ordering_needed`: compare the file's order
of valid ids with the `SETTINGS_ORDER`-based expected order (unknown
schema ids appended alphabetically). -/
def check_ordering_needed (original_order : List String) (validKeys : List String) : Bool :=
  decide (original_order.filter (fun id => validKeys.contains id) ≠
    (SETTINGS_ORDER.filter (fun id => validKeys.contains id)) ++
      sortStr (validKeys.filter (fun id => ¬ SETTINGS_ORDER.contains id)))

/-- A parsed configuration file: the ordered `<setting>` elements with
their version-5 extracted values (`none` models both an empty element
and Python `None`). -/
abbrev FileItems := List (String × Option String)

/-- An ordered association list: one entry per id of `order` that `g`
maps to a value. -/
def orderedImage {β : Type} (order : List String) (g : String → Option β) :
    List (String × β) :=
  order.filterMap (fun id => (g id).map (fun v => (id, v)))

/-- The element text written by `write_clean_config` for a raw string
value: `if value is not None and str(value).strip()` writes the value,
otherwise an empty element (which re-parses as `None`). -/
def renderRaw (v : Option String) : Option String :=
  match v with
  | some t => if pyStrip t ≠ "" then some t else none
  | none => none

/-- The element text written by `write_clean_config` for a coerced
value: Python `str()` renders booleans as `"True"`/`"False"`. -/
def toTextV (v : Value) : Option String :=
  match v with
  | .VStr s => if pyStrip s ≠ "" then some s else none
  | .VBool b => some (if b then "True" else "False")

/-- The id order `write_clean_config` emits: the section ids that are
present, then the remaining present ids alphabetically. -/
def writeIds (keys : List String) : List String :=
  WRITE_ORDER.filter (fun id => keys.contains id) ++
    sortStr (keys.filter (fun id => ¬ WRITE_ORDER.contains id))

/-- `SettingsManager.write_clean_config`, abstracted to the XML
element tree it produces (`toText` renders one value to element
text). -/
def writeCleanG {β : Type} (toText : β → Option String) (m : List (String × β)) : FileItems :=
  orderedImage (writeIds (m.map Prod.fst)) (fun id => (dget m id).map toText)

/-- A prefix test on character lists (helper for `hasSub`). -/
def startsWithL : List Char → List Char → Bool
  | _, [] => true
  | [], _ :: _ => false
  | c :: cs, p :: ps => c = p ∧ startsWithL cs ps

/-- Does `pat` occur as a contiguous run inside the list? -/
def hasSub (pat : List Char) : List Char → Bool
  | [] => startsWithL [] pat
  | c :: t => startsWithL (c :: t) pat ∨ hasSub pat t

/-- A character that XML character data passes through verbatim:
`&` starts an entity reference, `<` starts markup, a carriage return
is normalised to a line feed on parse, and control characters other
than tab and line feed are not valid XML characters at all. -/
def xmlTextSafeChar (c : Char) : Bool :=
  ¬(c = '&') ∧ ¬(c = '<') ∧ (c.toNat = 9 ∨ c.toNat = 10 ∨ 32 ≤ c.toNat)

/-- Element text that survives the write-then-reparse unchanged:
every character is plain XML character data and the forbidden
sequence `]]>` does not occur.  `write_clean_config` interpolates
values into the document unescaped (settings.py:209), so text outside
this set either makes `ET.parse` raise `ParseError` or comes back
altered (entity decoding, newline normalisation). -/
def xmlTextSafe (t : String) : Bool :=
  t.data.all xmlTextSafeChar ∧ ¬(hasSub "]]>".data t.data = true)

/-- Is one written element's text XML-safe (an empty element always
is)? -/
def textOk (o : Option String) : Bool :=
  match o with
  | none => true
  | some t => xmlTextSafe t

/-- Are all texts of a written file XML-safe? -/
def writtenTextsSafe (items : FileItems) : Bool := items.all (fun kv => textOk kv.2)

/-- Version-5 re-parse of a file just written by `write_clean_config`
(`SettingsManager.parse_config_file`).  The writer emits values with
raw f-string interpolation and no XML escaping, so `ET.parse` only
returns the element texts verbatim when they are XML-safe; `none`
models the raised `ET.ParseError` (and, conservatively, the cases
where expat would return a different string, such as entity
references or carriage returns).  On a well-formed file the parse
keeps every element in order and builds the dict with
first-occurrence positions, last value winning. -/
def parseWritten (items : FileItems) : Option FileItems :=
  if writtenTextsSafe items then some (toDict items) else none

/-- `SettingsManager.get_station_list`. -/
def get_station_list (settings : Settings) : Option (List String) :=
  if getD settings "slist" "" ≠ "" ∧ pyStrip (getD settings "slist" "") ≠ "" then
    some (((pySplitComma (getD settings "slist" "")).map pyStrip).filter (fun t => t ≠ ""))
  else none

/-- The in-memory settings dictionary after type coercion: values are
coerced `Value`s, `none` models Python `None`. -/
abbrev InMem := List (String × Option Value)

/-- The `defaults` table of `SettingsManager.set_missing_defaults`.
The source computes the `langdetect` default from
`_check_langdetect_available`, whose body is `try: return True except
ImportError: return False` and therefore always yields `True`. -/
def DEFAULTS : List (String × Value) :=
  [("lineupid", .VStr "auto"), ("days", .VStr "1"), ("slist", .VStr ""),
   ("stitle", .VBool false), ("xdetails", .VBool true), ("xdesc", .VBool true),
   ("langdetect", .VBool true), ("epgenre", .VStr "3"), ("epicon", .VStr "1"),
   ("tvhoff", .VBool true), ("usern", .VStr ""), ("passw", .VStr ""),
   ("tvhurl", .VStr "127.0.0.1"), ("tvhport", .VStr "9981"), ("tvhmatch", .VBool true),
   ("chmatch", .VBool true), ("redays", .VStr "1"), ("refresh", .VStr "48"),
   ("logrotate", .VStr "true"), ("relogs", .VStr "30"), ("rexmltv", .VStr "7")]

/-- The test `key not in settings or settings[key] is None`. -/
def missingOrNone (s : InMem) (k : String) : Bool :=
  match dget s k with
  | none => true
  | some none => true
  | some (some _) => false

/-- The `settings_to_add` dict built by the loop of
`SettingsManager.set_missing_defaults` over a defaults table. -/
def smdAdds (s : InMem) : List (String × Value) → List (String × Value)
  | [] => []
  | (k, v) :: rest =>
    if missingOrNone s k then (k, v) :: smdAdds (dinsert s k (some v)) rest
    else smdAdds s rest

/-- The updated settings dict built by the same loop. -/
def smdApply (s : InMem) : List (String × Value) → InMem
  | [] => s
  | (k, v) :: rest =>
    if missingOrNone s k then smdApply (dinsert s k (some v)) rest else smdApply s rest

/-- `SettingsManager.set_missing_defaults`: returns the updated
settings and the `settings_to_add` dict (the single Python loop is
split into its two projections). -/
def set_missing_defaults (s : InMem) : InMem × List (String × Value) :=
  (smdApply s DEFAULTS, smdAdds s DEFAULTS)

/-! ## `config/migration.py` -/

/-- `ConfigMigrator.DEPRECATED_SETTINGS` (its keys; the values are
only used for log messages). -/
def DEPRECATED_KEYS : List String :=
  ["auto_lineup", "lineupcode", "lineup", "device", "logrotate_enabled",
   "logrotate_interval", "logrotate_keep", "log_rotation", "log_retention",
   "xmltv_backup_retention"]

/-- `setting_id.startswith("desc") and re.match(r"desc[0-9]{2}",
setting_id)`: a prefix match, so anything may follow the two digits. -/
def isDescDeprecated (id : String) : Bool :=
  startsS id "desc" ∧ ((dropChars id 4).data.take 2).length = 2 ∧
    ((dropChars id 4).data.take 2).all isDigitChar

/-- A setting id classified as deprecated (rename table, legacy
numbered description fields, legacy user-agent field) by
`analyze_migration_needs`. -/
def isDeprecatedId (id : String) : Bool :=
  DEPRECATED_KEYS.contains id ∨ isDescDeprecated id ∨ id = "useragent"

/-- The `deprecated_settings` bucket of `analyze_migration_needs`,
in dict iteration order. -/
def deprecatedIds (dict : FileItems) : List String :=
  (dict.map Prod.fst).filter (fun id => ¬ VALID_IDS.contains id ∧ isDeprecatedId id)

/-- The `unknown_settings` bucket of `analyze_migration_needs`. -/
def unknownIds (dict : FileItems) : List String :=
  (dict.map Prod.fst).filter (fun id => ¬ VALID_IDS.contains id ∧ ¬ isDeprecatedId id)

/-- `migration_needed or ordering_needed` for a parsed file: the
removed bucket (deprecated plus unknown ids) is nonempty, or
`check_ordering_needed` reports the valid ids out of canonical
order. -/
def migrationCondition (f : FileItems) : Prop :=
  deprecatedIds (toDict f) ++ unknownIds (toDict f) ≠ [] ∨
    check_ordering_needed (f.map Prod.fst)
      (((toDict f).filter (fun kv => VALID_IDS.contains kv.1)).map Prod.fst) = true

instance (f : FileItems) : Decidable (migrationCondition f) := by
  unfold migrationCondition
  infer_instance

/-- One run of the migration engine on a parsed file
(`ConfigManager._parse_and_migrate_config` driving
`analyze_migration_needs` and `perform_migration`): the rewrite (and
the backup, second component) happens exactly when the removed bucket
is nonempty or reordering is needed; the rewrite is
`write_clean_config` on the valid settings only. -/
def migrate (f : FileItems) : FileItems × Bool :=
  if migrationCondition f then
    (writeCleanG renderRaw ((toDict f).filter (fun kv => VALID_IDS.contains kv.1)), true)
  else (f, false)

/-- What `validate_migration_result` sees after re-parsing the freshly
written file: the root tag, the declared `version` attribute, and the
number of `<setting>` elements.  `none` models a parse exception. -/
structure ParsedDoc where
  rootTag : String
  version : Option String
  settingCount : Nat
deriving DecidableEq, Repr

/-- `ConfigMigrator.validate_migration_result`: parse failure, a root
tag other than `settings`, or zero settings fail the validation; a
declared version other than `"5"` only logs a warning. -/
def validate_migration_result (parseResult : Option ParsedDoc) : Bool :=
  match parseResult with
  | none => false
  | some d => if d.rootTag ≠ "settings" then false else if d.settingCount = 0 then false else true

/-- The post-write step of `ConfigManager._perform_migration`: when
validation of the written file fails, `rollback_migration` restores
the backup copy verbatim (when one exists); either way the call
returns and the load continues.  The result is the final on-disk file
and whether a rollback happened. -/
def migrationFinalFile {α : Type} (parse : α → Option ParsedDoc) (backup : Option α)
    (written : α) : α × Bool :=
  if validate_migration_result (parse written) then (written, false)
  else
    match backup with
    | some b => (b, true)
    | none => (written, false)

/-- Rendering used by `update_config_with_defaults` when adding a new
default to the file: `str(value)`, except booleans become
`"true"`/`"false"`. -/
def renderValue (v : Value) : String :=
  match v with
  | .VStr s => s
  | .VBool b => if b then "true" else "false"

/-- The merging loop of `update_config_with_defaults`: append each
genuinely new key (one not already in the dict) with its rendered
default value. -/
def mergeNew (existing : FileItems) (newSettings : List (String × Value)) : FileItems :=
  newSettings.foldl
    (fun ex kv => if (dget ex kv.1).isSome then ex else ex ++ [(kv.1, some (renderValue kv.2))])
    existing

/-- `ConfigMigrator.update_config_with_defaults`: re-parse the file
fresh, keep the original values of the valid ids, append only the new
settings whose key is not already present, and rewrite with
`write_clean_config`. -/
def update_config_with_defaults (f : FileItems) (newSettings : List (String × Value)) :
    FileItems :=
  writeCleanG renderRaw
    (mergeNew ((toDict f).filter (fun kv => VALID_IDS.contains kv.1)) newSettings)

/-- A settings-map entry has the type its schema entry declares
(`bool` ids hold `VBool`, all others `VStr`). -/
def typeOk (kv : String × Value) : Bool :=
  match kv.2 with
  | .VStr _ => decide (kv.1 ∉ BOOL_IDS)
  | .VBool _ => decide (kv.1 ∈ BOOL_IDS)

/-- A string value survives the writer: it is empty or has a
non-whitespace character (a whitespace-only string is written as an
empty element and re-parses as `None`). -/
def strOkV (kv : String × Value) : Bool :=
  match kv.2 with
  | .VStr t => decide (t = "" ∨ pyStrip t ≠ "")
  | .VBool _ => true

/-- The write-then-reparse-then-coerce round trip of claim C8 on a
coerced settings map: write with `write_clean_config`, parse the
result back (version 5, `none` for the `ParseError` the unescaped
writer can provoke), and re-apply `validate_setting_type`. -/
def roundTripSettings (m : List (String × Value)) :
    Option (List (String × Sum Value (Option String))) :=
  (parseWritten (writeCleanG toTextV m)).map
    (fun items => items.map (fun kv => (kv.1, validate_setting_type kv.1 kv.2)))

/-- The string values of a settings map are XML-safe (booleans render
as `"True"`/`"False"`, which always are). -/
def xmlOkV (kv : String × Value) : Bool :=
  match kv.2 with
  | .VStr t => xmlTextSafe t
  | .VBool _ => true

/-! ## Helper lemmas about dictionaries -/

theorem dget_dinsert_self {β : Type} (m : List (String × β)) (k : String) (v : β) :
    dget (dinsert m k v) k = some v := by
  induction m with
  | nil => simp [dinsert, dget]
  | cons kv t ih =>
    obtain ⟨k', v'⟩ := kv
    by_cases h : k' = k
    · simp [dinsert, dget, h]
    · simp [dinsert, dget, h, ih]

theorem dget_dinsert_ne {β : Type} (m : List (String × β)) (k k2 : String) (v : β)
    (h : k2 ≠ k) : dget (dinsert m k v) k2 = dget m k2 := by
  have h2 : ¬ k = k2 := fun e => h e.symm
  induction m with
  | nil => simp [dinsert, dget, h2]
  | cons kv t ih =>
    obtain ⟨k', v'⟩ := kv
    by_cases hk : k' = k
    · subst hk
      simp [dinsert, dget, h2]
    · simp [dinsert, dget, hk, ih]

theorem getD_setKey_same (s : Settings) (k v d : String) : getD (setKey s k v) k d = v := by
  simp [getD, setKey, dget_dinsert_self]

theorem getD_setKey_ne (s : Settings) (k k2 v d : String) (h : k2 ≠ k) :
    getD (setKey s k v) k2 d = getD s k2 d := by
  simp [getD, setKey, dget_dinsert_ne _ _ _ _ h]

theorem dget_isSome_iff {β : Type} (m : List (String × β)) (k : String) :
    (dget m k).isSome = true ↔ k ∈ m.map Prod.fst := by
  induction m with
  | nil => simp [dget]
  | cons kv t ih =>
    obtain ⟨k', v'⟩ := kv
    by_cases h : k' = k
    · subst h; simp [dget]
    · have h2 : ¬ k = k' := fun e => h e.symm
      simp [dget, h, h2, ih]

theorem dget_mem {β : Type} (m : List (String × β)) (k : String) (v : β)
    (h : dget m k = some v) : (k, v) ∈ m := by
  induction m with
  | nil => simp [dget] at h
  | cons kv t ih =>
    obtain ⟨k', v'⟩ := kv
    by_cases hk : k' = k
    · subst hk
      simp [dget] at h
      simp [h]
    · simp [dget, hk] at h
      exact List.mem_cons_of_mem _ (ih h)

/-! ## Helper lemmas about decimal rendering and parsing -/

theorem dropWhile_eq_self_of_all {α : Type} (p : α → Bool) (l : List α)
    (h : ∀ c ∈ l, p c = false) : l.dropWhile p = l := by
  cases l with
  | nil => rfl
  | cons c t => simp [List.dropWhile_cons, h c (by simp)]

theorem stripChars_eq_self (cs : List Char) (h : ∀ c ∈ cs, isPySpace c = false) :
    stripChars cs = cs := by
  unfold stripChars
  rw [dropWhile_eq_self_of_all _ _ h,
    dropWhile_eq_self_of_all _ _ (fun c hc => h c (by simpa using hc)), List.reverse_reverse]

theorem digitChar_toNat (n : Nat) (h : n < 10) : (digitChar n).toNat = n + 48 := by
  interval_cases n <;> rfl

theorem digitChar_digit (n : Nat) (h : n < 10) : isDigitChar (digitChar n) = true := by
  interval_cases n <;> rfl

theorem digit_not_space (c : Char) (h : isDigitChar c = true) : isPySpace c = false := by
  simp [isDigitChar] at h
  simp [isPySpace]
  omega

theorem digitsToNat_append_digit (cs : List Char) (c : Char) :
    digitsToNat (cs ++ [c]) = digitsToNat cs * 10 + (c.toNat - 48) := by
  simp [digitsToNat, List.foldl_append]

theorem natDigitsF_spec : ∀ f n : Nat, n < f →
    natDigitsF f n ≠ [] ∧ (natDigitsF f n).all isDigitChar = true ∧
      digitsToNat (natDigitsF f n) = n := by
  intro f
  induction f with
  | zero => intro n h; omega
  | succ f ih =>
    intro n hn
    by_cases h : n < 10
    · refine ⟨by simp [natDigitsF, h], by simp [natDigitsF, h, digitChar_digit n h], ?_⟩
      have : (digitChar n).toNat = n + 48 := digitChar_toNat n h
      simp [natDigitsF, h, digitsToNat, this]
    · have h10 : n / 10 < f := by
        have := Nat.div_lt_self (n := n) (by omega) (by omega : 1 < 10)
        omega
      obtain ⟨h1, h2, h3⟩ := ih (n / 10) h10
      have hmod : n % 10 < 10 := Nat.mod_lt n (by omega)
      have heq : natDigitsF (f + 1) n = natDigitsF f (n / 10) ++ [digitChar (n % 10)] := by
        simp [natDigitsF, h]
      refine ⟨by simp [heq], ?_, ?_⟩
      · simp [heq, List.all_append, h2, digitChar_digit _ hmod]
      · rw [heq, digitsToNat_append_digit, h3, digitChar_toNat _ hmod]
        omega

theorem natDigits_spec (n : Nat) :
    natDigits n ≠ [] ∧ (natDigits n).all isDigitChar = true ∧ digitsToNat (natDigits n) = n :=
  natDigitsF_spec (n + 1) n (by omega)

theorem pyInt?_intToStr (i : Int) : pyInt? (intToStr i) = some i := by
  obtain ⟨h1, h2, h3⟩ := natDigits_spec i.natAbs
  have hall : ∀ c ∈ natDigits i.natAbs, isPySpace c = false := fun c hc =>
    digit_not_space c (by simpa using List.all_eq_true.mp h2 c hc)
  by_cases h : i < 0
  · have hstrip : stripChars ('-' :: natDigits i.natAbs) = '-' :: natDigits i.natAbs := by
      apply stripChars_eq_self
      intro c hc
      rcases List.mem_cons.mp hc with rfl | hc'
      · rfl
      · exact hall c hc'
    rw [intToStr, if_pos h]
    show pyInt? ⟨'-' :: natDigits i.natAbs⟩ = some i
    rw [pyInt?]
    rw [show (⟨'-' :: natDigits i.natAbs⟩ : String).data = '-' :: natDigits i.natAbs from rfl,
      hstrip]
    simp [digitsVal, h1, h2, h3]
    rw [abs_of_nonpos (by omega : i ≤ 0)]
    omega
  · have hstrip : stripChars (natDigits i.natAbs) = natDigits i.natAbs :=
      stripChars_eq_self _ hall
    obtain ⟨c, rest, hcr⟩ := List.exists_cons_of_ne_nil h1
    have hcd : isDigitChar c = true := by
      have := List.all_eq_true.mp h2 c (by rw [hcr]; exact List.mem_cons_self c rest)
      simpa using this
    have hc1 : ¬ (c = '-') := by
      intro e; rw [e] at hcd; exact absurd hcd (by decide)
    have hc2 : ¬ (c = '+') := by
      intro e; rw [e] at hcd; exact absurd hcd (by decide)
    rw [intToStr, if_neg h]
    show pyInt? ⟨natDigits i.natAbs⟩ = some i
    rw [pyInt?]
    rw [show (⟨natDigits i.natAbs⟩ : String).data = natDigits i.natAbs from rfl, hstrip, hcr]
    rw [show (c :: rest).head? = some c from rfl]
    rw [if_neg (by simpa using hc1), if_neg (by simpa using hc2), ← hcr]
    simp [digitsVal, h1, h2, h3]
    omega

theorem max_one_fdiv_eq_tdiv (d b : Int) (hb : 0 < b) :
    max 1 (Int.fdiv d b) = max 1 (Int.tdiv d b) := by
  by_cases h : 0 ≤ d
  · rw [Int.fdiv_eq_tdiv h (le_of_lt hb)]
  · have h1 : Int.fdiv d b < 0 := Int.fdiv_neg' (by omega) hb
    have h2 : Int.tdiv d b ≤ 0 := by
      have hx := Int.tdiv_nonneg (a := -d) (b := b) (by omega) (le_of_lt hb)
      rw [Int.neg_tdiv] at hx
      omega
    rw [max_eq_left (by omega), max_eq_left (by omega)]

/-! ## Helper lemmas about append, ordered images, sorting, dict building -/

theorem dget_append_left {β : Type} (l₁ l₂ : List (String × β)) (k : String) (v : β)
    (h : dget l₁ k = some v) : dget (l₁ ++ l₂) k = some v := by
  induction l₁ with
  | nil => simp [dget] at h
  | cons kv t ih =>
    obtain ⟨k', v'⟩ := kv
    by_cases hk : k' = k
    · simp [dget, hk] at h ⊢
      exact h
    · simp [dget, hk] at h ⊢
      exact ih h

theorem dget_append_right {β : Type} (l₁ l₂ : List (String × β)) (k : String)
    (h : dget l₁ k = none) : dget (l₁ ++ l₂) k = dget l₂ k := by
  induction l₁ with
  | nil => simp
  | cons kv t ih =>
    obtain ⟨k', v'⟩ := kv
    by_cases hk : k' = k
    · simp [dget, hk] at h
    · simp [dget, hk] at h ⊢
      exact ih h

theorem dget_eq_none_of_not_mem {β : Type} (m : List (String × β)) (k : String)
    (h : k ∉ m.map Prod.fst) : dget m k = none := by
  cases hm : dget m k with
  | none => rfl
  | some v => exact absurd ((dget_isSome_iff m k).mp (by rw [hm]; rfl)) h

theorem dget_mem_keys {β : Type} (m : List (String × β)) (k : String) (v : β)
    (h : dget m k = some v) : k ∈ m.map Prod.fst :=
  (dget_isSome_iff m k).mp (by rw [h]; rfl)

theorem dget_orderedImage {β : Type} (order : List String) (g : String → Option β)
    (hnd : order.Nodup) (k : String) :
    dget (orderedImage order g) k = if k ∈ order then g k else none := by
  induction order with
  | nil => simp [orderedImage, dget]
  | cons a t ih =>
    obtain ⟨hat, hnt⟩ := List.nodup_cons.mp hnd
    cases hga : g a with
    | none =>
      rw [show orderedImage (a :: t) g = orderedImage t g from by
        simp [orderedImage, List.filterMap_cons, hga]]
      rw [ih hnt]
      by_cases hk : k = a
      · subst hk
        rw [if_neg hat, if_pos (by simp), hga]
      · simp [List.mem_cons, hk]
    | some v =>
      rw [show orderedImage (a :: t) g = (a, v) :: orderedImage t g from by
        simp [orderedImage, List.filterMap_cons, hga]]
      by_cases hk : a = k
      · subst hk
        rw [show dget ((a, v) :: orderedImage t g) a = some v from by simp [dget]]
        rw [if_pos (by simp), hga]
      · rw [show dget ((a, v) :: orderedImage t g) k = dget (orderedImage t g) k from by
          simp [dget, hk]]
        rw [ih hnt]
        by_cases hm : k ∈ t
        · rw [if_pos hm, if_pos (by simp [hm])]
        · rw [if_neg hm,
            if_neg (by simp only [List.mem_cons, not_or]; exact ⟨fun e => hk e.symm, hm⟩)]

theorem orderedImage_keys_sublist {β : Type} (order : List String) (g : String → Option β) :
    List.Sublist ((orderedImage order g).map Prod.fst) order := by
  induction order with
  | nil => simp [orderedImage]
  | cons a t ih =>
    cases hga : g a with
    | none =>
      rw [show orderedImage (a :: t) g = orderedImage t g from by
        simp [orderedImage, List.filterMap_cons, hga]]
      exact ih.cons a
    | some v =>
      rw [show orderedImage (a :: t) g = (a, v) :: orderedImage t g from by
        simp [orderedImage, List.filterMap_cons, hga]]
      simpa using ih.cons₂ a

theorem insortS_perm (x : String) (l : List String) : (insortS x l).Perm (x :: l) := by
  induction l with
  | nil => simp [insortS]
  | cons y ys ih =>
    rw [insortS]
    split
    · exact List.Perm.refl _
    · exact ((ih.cons y).trans (List.Perm.swap x y ys)).symm.symm

theorem sortStr_perm (l : List String) : (sortStr l).Perm l := by
  induction l with
  | nil => exact List.Perm.refl _
  | cons x xs ih => exact (insortS_perm x (sortStr xs)).trans (ih.cons x)

theorem mem_sortStr (x : String) (l : List String) : x ∈ sortStr l ↔ x ∈ l :=
  (sortStr_perm l).mem_iff

theorem sortStr_nodup (l : List String) (h : l.Nodup) : (sortStr l).Nodup :=
  (sortStr_perm l).nodup_iff.mpr h

theorem WRITE_ORDER_nodup : WRITE_ORDER.Nodup := by decide

theorem mem_writeIds (keys : List String) (k : String) : k ∈ writeIds keys ↔ k ∈ keys := by
  rw [writeIds]
  simp only [List.mem_append, List.mem_filter, mem_sortStr]
  by_cases hw : k ∈ WRITE_ORDER <;> simp [hw]

theorem writeIds_nodup (keys : List String) (h : keys.Nodup) : (writeIds keys).Nodup := by
  rw [writeIds]
  refine List.Nodup.append (WRITE_ORDER_nodup.filter _) (sortStr_nodup _ (h.filter _)) ?_
  intro a ha hb
  rw [mem_sortStr] at hb
  have h1 : a ∈ WRITE_ORDER := (List.mem_filter.mp ha).1
  have h2 := (List.mem_filter.mp hb).2
  simp at h2
  exact h2 h1

theorem dinsert_of_not_mem {β : Type} (m : List (String × β)) (k : String) (v : β)
    (h : k ∉ m.map Prod.fst) : dinsert m k v = m ++ [(k, v)] := by
  induction m with
  | nil => rfl
  | cons kv t ih =>
    obtain ⟨k', v'⟩ := kv
    simp only [List.map_cons, List.mem_cons, not_or] at h
    rw [show dinsert ((k', v') :: t) k v = (k', v') :: dinsert t k v from by
      rw [dinsert, if_neg (fun e : k' = k => h.1 e.symm)]]
    rw [ih h.2]
    rfl

theorem map_fst_dinsert_mem {β : Type} (m : List (String × β)) (k : String) (v : β)
    (h : k ∈ m.map Prod.fst) : (dinsert m k v).map Prod.fst = m.map Prod.fst := by
  induction m with
  | nil => simp at h
  | cons kv t ih =>
    obtain ⟨k', v'⟩ := kv
    by_cases hk : k' = k
    · simp [dinsert, hk]
    · simp only [List.map_cons, List.mem_cons] at h
      rcases h with h | h
    
      · exact absurd h.symm hk
      · simp [dinsert, hk, ih h]

theorem foldl_dinsert_keys_nodup {β : Type} :
    ∀ (items : List (String × β)) (acc : List (String × β)),
      ((acc.map Prod.fst).Nodup) →
      ((items.foldl (fun m kv => dinsert m kv.1 kv.2) acc).map Prod.fst).Nodup := by
  intro items
  induction items with
  | nil => intro acc h; exact h
  | cons kv t ih =>
    intro acc h
    rw [List.foldl_cons]
    apply ih
    by_cases hk : kv.1 ∈ acc.map Prod.fst
    · rw [map_fst_dinsert_mem _ _ _ hk]
      exact h
    · rw [dinsert_of_not_mem _ _ _ hk, List.map_append]
      refine List.Nodup.append h (List.nodup_singleton _) ?_
      intro a ha hb
      simp at hb
      subst hb
      exact hk ha

theorem toDict_keys_nodup {β : Type} (items : List (String × β)) :
    ((toDict items).map Prod.fst).Nodup :=
  foldl_dinsert_keys_nodup items [] (by simp)

theorem foldl_dinsert_append {β : Type} :
    ∀ (items acc : List (String × β)),
      (∀ kv ∈ items, kv.1 ∉ acc.map Prod.fst) → ((items.map Prod.fst).Nodup) →
      items.foldl (fun m kv => dinsert m kv.1 kv.2) acc = acc ++ items := by
  intro items
  induction items with
  | nil => intro acc _ _; simp
  | cons kv t ih =>
    intro acc hdisj hnd
    rw [List.foldl_cons, dinsert_of_not_mem _ _ _ (hdisj kv (by simp))]
    rw [List.map_cons] at hnd
    have hnd' := List.nodup_cons.mp hnd
    have hd : ∀ kv' ∈ t, kv'.1 ∉ (acc ++ [kv]).map Prod.fst := by
      intro kv' hkv'
      rw [List.map_append]
      simp only [List.mem_append]
      rintro (hin | hin)
      · exact hdisj kv' (List.mem_cons_of_mem _ hkv') hin
      · simp at hin
        exact hnd'.1 (hin ▸ List.mem_map_of_mem Prod.fst hkv')
    rw [ih (acc ++ [kv]) hd hnd'.2]
    simp

theorem toDict_of_keys_nodup {β : Type} (items : List (String × β))
    (h : (items.map Prod.fst).Nodup) : toDict items = items := by
  rw [toDict, foldl_dinsert_append items [] (by simp) h]
  simp

theorem mem_dinsert {β : Type} (m : List (String × β)) (k : String) (v : β)
    (kv' : String × β) (h : kv' ∈ dinsert m k v) : kv' ∈ m ∨ kv' = (k, v) := by
  induction m with
  | nil => simp [dinsert] at h; simp [h]
  | cons kv t ih =>
    obtain ⟨k', v'⟩ := kv
    by_cases hk : k' = k
    · rw [show dinsert ((k', v') :: t) k v = (k', v) :: t from by simp [dinsert, hk]] at h
      rcases List.mem_cons.mp h with h | h
      · right; rw [h, hk]
      · left; exact List.mem_cons_of_mem _ h
    · rw [show dinsert ((k', v') :: t) k v = (k', v') :: dinsert t k v from by
        simp [dinsert, hk]] at h
      rcases List.mem_cons.mp h with h | h
      · left; simp [h]
      · rcases ih h with h | h
        · left; exact List.mem_cons_of_mem _ h
        · right; exact h

theorem mem_foldl_dinsert {β : Type} :
    ∀ (items acc : List (String × β)) (kv : String × β),
      kv ∈ items.foldl (fun m p => dinsert m p.1 p.2) acc → kv ∈ acc ∨ kv ∈ items := by
  intro items
  induction items with
  | nil => intro acc kv h; exact Or.inl h
  | cons p t ih =>
    intro acc kv h
    rw [List.foldl_cons] at h
    rcases ih _ kv h with h | h
    · rcases mem_dinsert _ _ _ _ h with h | h
      · exact Or.inl h
      · right
        rw [h]
        simp
    · right
      exact List.mem_cons_of_mem _ h

theorem mem_toDict {β : Type} (items : List (String × β)) (kv : String × β)
    (h : kv ∈ toDict items) : kv ∈ items := by
  rcases mem_foldl_dinsert items [] kv h with h | h
  · simp at h
  · exact h

theorem mergeNew_preserves (ex : FileItems) (new : List (String × Value)) (k : String)
    (v : Option String) (h : dget ex k = some v) : dget (mergeNew ex new) k = some v := by
  induction new generalizing ex with
  | nil => simpa [mergeNew] using h
  | cons kv t ih =>
    rw [mergeNew, List.foldl_cons]
    by_cases hc : (dget ex kv.1).isSome
    · rw [if_pos hc]
      exact ih ex h
    · rw [if_neg hc]
      exact ih _ (dget_append_left _ _ _ _ h)

theorem mergeNew_keys_nodup (ex : FileItems) (new : List (String × Value))
    (h : (ex.map Prod.fst).Nodup) : ((mergeNew ex new).map Prod.fst).Nodup := by
  induction new generalizing ex with
  | nil => simpa [mergeNew] using h
  | cons kv t ih =>
    rw [mergeNew, List.foldl_cons]
    by_cases hc : (dget ex kv.1).isSome
    · rw [if_pos hc]
      exact ih ex h
    · rw [if_neg hc]
      apply ih
      rw [List.map_append]
      refine List.Nodup.append h (List.nodup_singleton _) ?_
      intro a ha hb
      simp at hb
      subst hb
      exact hc ((dget_isSome_iff ex kv.1).mpr ha)

theorem dget_mergeNew_new (ex : FileItems) (new : List (String × Value)) (k : String)
    (v : Value) (hnodup : (new.map Prod.fst).Nodup) (hmem : (k, v) ∈ new)
    (habs : dget ex k = none) :
    dget (mergeNew ex new) k = some (some (renderValue v)) := by
  induction new generalizing ex with
  | nil => simp at hmem
  | cons kv t ih =>
    rw [List.map_cons] at hnodup
    obtain ⟨hhd, hnd⟩ := List.nodup_cons.mp hnodup
    rw [mergeNew, List.foldl_cons]
    rcases List.mem_cons.mp hmem with heq | htl
    · have hk1 : kv.1 = k := by rw [← heq]
      have hk2 : kv.2 = v := by rw [← heq]
      rw [hk1, hk2, if_neg (by rw [habs]; simp)]
      refine mergeNew_preserves _ _ _ _ ?_
      rw [dget_append_right _ _ _ habs]
      simp [dget]
    · have hkne : kv.1 ≠ k := by
        intro e
        exact hhd (e ▸ List.mem_map_of_mem Prod.fst htl)
      by_cases hc : (dget ex kv.1).isSome
      · rw [if_pos hc]
        exact ih ex hnd htl habs
      · rw [if_neg hc]
        refine ih _ hnd htl ?_
        rw [dget_append_right _ _ _ habs]
        simp [dget, hkne]

theorem writeCleanG_keys_nodup {β : Type} (toText : β → Option String)
    (m : List (String × β)) (h : (m.map Prod.fst).Nodup) :
    ((writeCleanG toText m).map Prod.fst).Nodup := by
  rw [writeCleanG]
  exact (writeIds_nodup _ h).sublist (orderedImage_keys_sublist _ _)

theorem dget_writeCleanG {β : Type} (toText : β → Option String) (m : List (String × β))
    (h : (m.map Prod.fst).Nodup) (k : String) :
    dget (writeCleanG toText m) k = (dget m k).map toText := by
  rw [writeCleanG, dget_orderedImage _ _ (writeIds_nodup _ h) k]
  by_cases hk : k ∈ writeIds (m.map Prod.fst)
  · rw [if_pos hk]
  · rw [if_neg hk]
    rw [dget_eq_none_of_not_mem m k (fun hm => hk ((mem_writeIds _ _).mpr hm))]
    rfl

theorem dget_mapPairs {β γ : Type} (fm : String → β → γ) (l : List (String × β)) (k : String) :
    dget (l.map (fun kv => (kv.1, fm kv.1 kv.2))) k = (dget l k).map (fm k) := by
  induction l with
  | nil => rfl
  | cons kv t ih =>
    obtain ⟨k', v⟩ := kv
    by_cases hk : k' = k
    · subst hk
      simp [dget]
    · simp [dget, hk, ih]

/-! ## Claims C7, C9, C10 -/

/-- C7: for every country and postal code, `normalize_lineup_id` maps
an empty or case-insensitively "auto" lineup id to
`{country}-OTA{postal}-DEFAULT`; appends `-DEFAULT` to an id ending in
neither `-DEFAULT` nor `-X`; and returns an id already ending in
`-DEFAULT` or `-X` unchanged. -/
theorem c7_normalize_lineup_id (lineupid country postal : String) :
    ((lineupid = "" ∨ pyLower lineupid = "auto") →
      normalize_lineup_id lineupid country postal = country ++ "-OTA" ++ postal ++ "-DEFAULT")
    ∧ (lineupid ≠ "" → pyLower lineupid ≠ "auto" →
        endsS lineupid "-DEFAULT" = false → endsS lineupid "-X" = false →
        normalize_lineup_id lineupid country postal = lineupid ++ "-DEFAULT")
    ∧ (lineupid ≠ "" → pyLower lineupid ≠ "auto" →
        (endsS lineupid "-DEFAULT" = true ∨ endsS lineupid "-X" = true) →
        normalize_lineup_id lineupid country postal = lineupid) := by
  refine ⟨fun h => ?_, fun h1 h2 h3 h4 => ?_, fun h1 h2 h3 => ?_⟩
  · rw [normalize_lineup_id, if_pos h]
  · rw [normalize_lineup_id, if_neg (by tauto), if_pos (by simp [h3, h4])]
  · rw [normalize_lineup_id, if_neg (by tauto), if_neg (by rcases h3 with h3 | h3 <;> simp [h3])]

/-- Closed instances of C7 (each case of `c7_normalize_lineup_id`
applied at concrete inputs). -/
theorem c7_witness :
    normalize_lineup_id "auto" "CAN" "J3B1M4" = "CAN-OTAJ3B1M4-DEFAULT"
    ∧ normalize_lineup_id "CAN-OTAJ3B1M4" "CAN" "J3B1M4" = "CAN-OTAJ3B1M4-DEFAULT"
    ∧ normalize_lineup_id "CAN-0005993-X" "CAN" "J3B1M4" = "CAN-0005993-X" := by
  refine ⟨((c7_normalize_lineup_id "auto" "CAN" "J3B1M4").1 (Or.inr (by decide))).trans
    (by decide), ?_, ?_⟩
  · exact (c7_normalize_lineup_id "CAN-OTAJ3B1M4" "CAN" "J3B1M4").2.1
      (by decide) (by decide) (by decide) (by decide)
  · exact (c7_normalize_lineup_id "CAN-0005993-X" "CAN" "J3B1M4").2.2
      (by decide) (by decide) (Or.inr (by decide))

/-- C9: the retention conversion functions compute exactly the
specified mapping:  `_parse_retention_to_days` parses an integer
literal directly, maps the period words (case- and
whitespace-insensitively) to 7/30/90/0, and falls back to the
interval-dependent default 30/90/365; `_days_to_keep_files` maps 0 to
0 for every interval, keeps `days` for daily, and computes
`max 1 (days // 7)` resp. `max 1 (days // 30)` for weekly/monthly;
under `max 1 _` the floor division agrees with division truncating
toward zero, as the claim words it.  Both are Lean functions, hence
deterministic. -/
theorem c9_retention_conversions :
    (∀ v iv : String, ∀ n : Int, pyInt? (pyLower (pyStrip v)) = some n →
      parse_retention_to_days v iv = n)
    ∧ (∀ v iv : String, pyInt? (pyLower (pyStrip v)) = none →
        (pyLower (pyStrip v) = "weekly" → parse_retention_to_days v iv = 7)
        ∧ (pyLower (pyStrip v) = "monthly" → parse_retention_to_days v iv = 30)
        ∧ (pyLower (pyStrip v) = "quarterly" → parse_retention_to_days v iv = 90)
        ∧ (pyLower (pyStrip v) = "unlimited" → parse_retention_to_days v iv = 0))
    ∧ (∀ v : String, pyInt? (pyLower (pyStrip v)) = none →
        pyLower (pyStrip v) ∉ (["weekly", "monthly", "quarterly", "unlimited"] : List String) →
        parse_retention_to_days v "daily" = 30 ∧ parse_retention_to_days v "weekly" = 90
        ∧ parse_retention_to_days v "monthly" = 365)
    ∧ (∀ iv : String, days_to_keep_files 0 iv = 0)
    ∧ (∀ d : Int, d ≠ 0 → days_to_keep_files d "daily" = d
        ∧ days_to_keep_files d "weekly" = max 1 (Int.fdiv d 7)
        ∧ days_to_keep_files d "monthly" = max 1 (Int.fdiv d 30))
    ∧ (∀ d : Int, max 1 (Int.fdiv d 7) = max 1 (Int.tdiv d 7)
        ∧ max 1 (Int.fdiv d 30) = max 1 (Int.tdiv d 30)) := by
  refine ⟨?_, ?_, ?_, ?_, ?_, ?_⟩
  · intro v iv n h
    rw [parse_retention_to_days, h]
  · intro v iv h
    refine ⟨fun e => ?_, fun e => ?_, fun e => ?_, fun e => ?_⟩ <;>
      rw [parse_retention_to_days, h] <;> simp [e]
  · intro v h hmem
    simp only [List.mem_cons, List.not_mem_nil, or_false, not_or] at hmem
    obtain ⟨e1, e2, e3, e4⟩ := hmem
    refine ⟨?_, ?_, ?_⟩ <;> rw [parse_retention_to_days, h] <;> simp [e1, e2, e3, e4]
  · intro iv
    rw [days_to_keep_files, if_pos rfl]
  · intro d hd
    refine ⟨?_, ?_, ?_⟩ <;> rw [days_to_keep_files, if_neg hd] <;> simp
  · intro d
    exact ⟨max_one_fdiv_eq_tdiv d 7 (by omega), max_one_fdiv_eq_tdiv d 30 (by omega)⟩

/-- Closed instances of C9 obtained from `c9_retention_conversions`
at concrete inputs. -/
theorem c9_witness :
    parse_retention_to_days "45" "monthly" = 45
    ∧ parse_retention_to_days " Unlimited " "weekly" = 0
    ∧ parse_retention_to_days "bogus" "monthly" = 365
    ∧ days_to_keep_files 0 "daily" = 0
    ∧ days_to_keep_files 30 "weekly" = max 1 (Int.fdiv 30 7) := by
  obtain ⟨hint, hsym, hfall, hz, hnz, _⟩ := c9_retention_conversions
  exact ⟨hint "45" "monthly" 45 (by decide),
    (hsym " Unlimited " "weekly" (by decide)).2.2.2 (by decide),
    (hfall "bogus" (by decide) (by decide)).2.2,
    hz "daily",
    (hnz 30 (by decide)).2.1⟩

/-- C10: `get_station_list` returns `none` when the `slist` value is
absent (so defaulted to `""`), empty, or whitespace-only; otherwise it
splits on commas, strips each entry, and drops entries that become
empty, so any returned list contains only non-empty strings. -/
theorem c10_get_station_list (settings : Settings) :
    ((getD settings "slist" "" = "" ∨ pyStrip (getD settings "slist" "") = "") →
      get_station_list settings = none)
    ∧ (getD settings "slist" "" ≠ "" → pyStrip (getD settings "slist" "") ≠ "" →
        get_station_list settings =
          some (((pySplitComma (getD settings "slist" "")).map pyStrip).filter (fun t => t ≠ "")))
    ∧ (∀ l, get_station_list settings = some l → ∀ x ∈ l, x ≠ "") := by
  refine ⟨fun h => ?_, fun h1 h2 => ?_, fun l hl x hx => ?_⟩
  · rw [get_station_list, if_neg (by tauto)]
  · rw [get_station_list, if_pos ⟨h1, h2⟩]
  · rw [get_station_list] at hl
    split at hl
    · obtain rfl : (((pySplitComma (getD settings "slist" "")).map pyStrip).filter
          (fun t => t ≠ "")) = l := by injection hl
      have := (List.mem_filter.mp hx).2
      simpa using this
    · exact absurd hl (by simp)

/-- Closed instances of C10 obtained from `c10_get_station_list` at
concrete inputs. -/
theorem c10_witness :
    get_station_list [("slist", " a , b,, c ")] = some ["a", "b", "c"]
    ∧ get_station_list [("slist", "  ")] = none := by
  obtain ⟨_, h2, _⟩ := c10_get_station_list [("slist", " a , b,, c ")]
  obtain ⟨g1, _, _⟩ := c10_get_station_list [("slist", "  ")]
  exact ⟨(h2 (by decide) (by decide)).trans (by decide), g1 (Or.inr (by decide))⟩

/-! ## Claims C5, C6, C1, C2 -/

/-- C5: for every settings map whose `days` value parses as an integer
`d ≥ 1`, the redays validation returns normally and afterwards
`int(redays) ≥ int(days)` holds (with `days` untouched): an
unparsable `redays` and a `redays < days` are both set to
`str(days)`, and a `redays ≥ days` is left unchanged. -/
theorem c5_redays_invariant (s : Settings) (d : Int)
    (hd : pyInt? (getD s "days" "1") = some d) (h1 : 1 ≤ d) :
    ∃ s', validateRedays s = .ok s'
      ∧ getD s' "days" "1" = getD s "days" "1"
      ∧ (∃ rd : Int, pyInt? (getD s' "redays" (intToStr d)) = some rd ∧ d ≤ rd)
      ∧ (pyInt? (getD s "redays" (intToStr d)) = none →
          s' = setKey s "redays" (intToStr d))
      ∧ (∀ rd : Int, pyInt? (getD s "redays" (intToStr d)) = some rd →
          (rd < d → s' = setKey s "redays" (intToStr d)) ∧ (d ≤ rd → s' = s)) := by
  rw [validateRedays, hd]
  dsimp only
  cases hrd : pyInt? (getD s "redays" (intToStr d)) with
  | none =>
    dsimp only
    refine ⟨setKey s "redays" (intToStr d), rfl, ?_, ?_, fun _ => rfl, ?_⟩
    · exact getD_setKey_ne s "redays" "days" (intToStr d) "1" (by decide)
    · exact ⟨d, by rw [getD_setKey_same, pyInt?_intToStr], le_refl d⟩
    · intro rd h
      exact Option.noConfusion h
  | some rd =>
    dsimp only
    by_cases hlt : rd < d
    · rw [if_pos hlt]
      refine ⟨setKey s "redays" (intToStr d), rfl, ?_, ?_, ?_, ?_⟩
      · exact getD_setKey_ne s "redays" "days" (intToStr d) "1" (by decide)
      · exact ⟨d, by rw [getD_setKey_same, pyInt?_intToStr], le_refl d⟩
      · intro hn
        exact Option.noConfusion hn
      · intro rd' h
        injection h with h
        subst h
        exact ⟨fun _ => rfl, fun hle => absurd hlt (not_lt.mpr hle)⟩
    · rw [if_neg hlt]
      refine ⟨s, rfl, rfl, ?_, ?_, ?_⟩
      · exact ⟨rd, hrd, not_lt.mp hlt⟩
      · intro hn
        exact Option.noConfusion hn
      · intro rd' h
        injection h with h
        subst h
        exact ⟨fun hlt' => absurd hlt' hlt, fun _ => rfl⟩

/-- Closed instance of C5: `days = 3`, `redays = 1` is corrected to
`redays = "3"` (via `c5_redays_invariant`). -/
theorem c5_witness :
    validateRedays [("days", "3"), ("redays", "1")] = .ok [("days", "3"), ("redays", "3")] := by
  obtain ⟨s', h, _, _, _, hsome⟩ :=
    c5_redays_invariant [("days", "3"), ("redays", "1")] 3 (by decide) (by decide)
  have he := (hsome 1 (by decide)).1 (by decide)
  rw [h, he]
  rfl

/-- C6 counterexample: the claim says a `logrotate` value outside
`{true,false,daily,weekly,monthly}` under case-insensitive comparison
is replaced by `"true"`; the code tests the lowered AND stripped
value and stores that normalised value, so `" DAILY "` — outside the
enum even case-insensitively, because of the surrounding spaces — is
kept as `"daily"` rather than replaced by `"true"`. -/
theorem c6_counterexample :
    pyLower " DAILY " ∉ (["true", "false", "daily", "weekly", "monthly"] : List String)
    ∧ validateLogrotate [("logrotate", " DAILY ")] = [("logrotate", "daily")]
    ∧ ("daily" : String) ≠ "true" :=
  ⟨by decide, by decide, by decide⟩

/-- C6 amended: the four range/enum validators are total functions
(never raise); `refresh` outside `[0,168]` or unparsable becomes
`"48"`, otherwise the stored value is untouched; `logrotate` is
compared after lowering AND stripping, a valid value is stored in that
normalised form and an invalid one becomes `"true"`; `relogs` and
`rexmltv` are judged on their stripped value by
`validate_retention_value` (an integer in `[0,3650]` or a period word
case-insensitively) and replaced by `"30"` resp. `"7"` exactly when
invalid, kept verbatim otherwise. -/
theorem c6_range_enum_validation (s : Settings) :
    (∀ h : Int, pyInt? (getD s "refresh" "48") = some h →
      ((h < 0 ∨ 168 < h) → validate_refresh_hours s = setKey s "refresh" "48")
      ∧ (0 ≤ h → h ≤ 168 → validate_refresh_hours s = s))
    ∧ (pyInt? (getD s "refresh" "48") = none →
        validate_refresh_hours s = setKey s "refresh" "48")
    ∧ (pyStrip (pyLower (getD s "logrotate" "true")) ∈
        (["true", "false", "daily", "weekly", "monthly"] : List String) →
        validateLogrotate s = setKey s "logrotate" (pyStrip (pyLower (getD s "logrotate" "true"))))
    ∧ (pyStrip (pyLower (getD s "logrotate" "true")) ∉
        (["true", "false", "daily", "weekly", "monthly"] : List String) →
        validateLogrotate s = setKey s "logrotate" "true")
    ∧ (validate_retention_value (pyStrip (getD s "relogs" "30")) = true → validateRelogs s = s)
    ∧ (validate_retention_value (pyStrip (getD s "relogs" "30")) = false →
        validateRelogs s = setKey s "relogs" "30")
    ∧ (validate_retention_value (pyStrip (getD s "rexmltv" "7")) = true → validateRexmltv s = s)
    ∧ (validate_retention_value (pyStrip (getD s "rexmltv" "7")) = false →
        validateRexmltv s = setKey s "rexmltv" "7")
    ∧ (∀ v : String, validate_retention_value v = true ↔
        (v ≠ "" ∧ ((∃ n : Int, pyInt? v = some n ∧ 0 ≤ n ∧ n ≤ 3650)
          ∨ (pyInt? v = none ∧
              pyLower v ∈ (["weekly", "monthly", "quarterly", "unlimited"] : List String))))) := by
  refine ⟨fun h hp => ⟨fun hout => ?_, fun hlo hhi => ?_⟩, fun hp => ?_, fun hin => ?_,
    fun hout => ?_, fun hv => ?_, fun hv => ?_, fun hv => ?_, fun hv => ?_, fun v => ?_⟩
  · rw [validate_refresh_hours, hp]
    dsimp only
    rw [if_pos hout]
  · rw [validate_refresh_hours, hp]
    dsimp only
    rw [if_neg (by omega)]
  · rw [validate_refresh_hours, hp]
  · rw [validateLogrotate, if_pos hin]
  · rw [validateLogrotate, if_neg hout]
  · rw [validateRelogs, if_pos hv]
  · rw [validateRelogs, if_neg (by simp [hv])]
  · rw [validateRexmltv, if_pos hv]
  · rw [validateRexmltv, if_neg (by simp [hv])]
  · rw [validate_retention_value]
    by_cases he : v = ""
    · simp [he]
    · rw [if_neg he]
      cases hp : pyInt? v with
      | none => simp [he, hp]
      | some n => simp [he, hp]

/-- Closed instances of C6 (via `c6_range_enum_validation`): the
spec scenario `refresh=500` becomes `"48"`, and invalid retention
values are replaced by their defaults. -/
theorem c6_witness :
    validate_refresh_hours [("refresh", "500")] = [("refresh", "48")]
    ∧ validateRelogs [("relogs", "9999")] = [("relogs", "30")]
    ∧ validateRexmltv [("rexmltv", "never")] = [("rexmltv", "7")] := by
  refine ⟨?_, ?_, ?_⟩
  · exact (((c6_range_enum_validation [("refresh", "500")]).1 500 (by decide)).1
      (Or.inr (by decide)))
  · exact (c6_range_enum_validation [("relogs", "9999")]).2.2.2.2.2.1 (by decide)
  · exact (c6_range_enum_validation [("rexmltv", "never")]).2.2.2.2.2.2.2.1 (by decide)

/-- C1: when the (stripped) lineup id is not "auto" and encodes an
extractable location `loc`, the consistency check raises exactly when
a non-empty zipcode disagrees with `loc` after space removal and
upper-casing (the settings are returned unmodified in the agreeing
case), and auto-populates `zipcode` from the lineup id (recording the
change) when the zipcode is empty.  In the raising case the embedding
returns `.error` without any updated dictionary, mirroring that the
source raises before any mutation. -/
theorem c1_consistency_check (s : Settings) (loc : String)
    (hauto : pyLower (pyStrip (getD s "lineupid" "auto")) ≠ "auto")
    (hex : extract_location_from_lineupid (pyStrip (getD s "lineupid" "auto")) = some loc) :
    (pyStrip (getD s "zipcode" "") ≠ "" →
      pyUpper (removeSpaces loc) ≠ pyUpper (removeSpaces (pyStrip (getD s "zipcode" ""))) →
      ∃ e, validate_config_consistency s = .error e)
    ∧ (pyStrip (getD s "zipcode" "") ≠ "" →
        pyUpper (removeSpaces loc) = pyUpper (removeSpaces (pyStrip (getD s "zipcode" ""))) →
        validate_config_consistency s = .ok (s, []))
    ∧ (pyStrip (getD s "zipcode" "") = "" →
        validate_config_consistency s =
          .ok (setKey s "zipcode" (removeSpaces loc),
            [("zipcode", "(empty) → " ++ removeSpaces loc ++ " (extracted from " ++
              pyStrip (getD s "lineupid" "auto") ++ ")")])) := by
  refine ⟨fun hz hne => ?_, fun hz he => ?_, fun hz => ?_⟩
  · rw [validate_config_consistency, if_pos hauto, hex]
    dsimp only
    rw [if_pos hz, if_pos hne]
    exact ⟨_, rfl⟩
  · rw [validate_config_consistency, if_pos hauto, hex]
    dsimp only
    rw [if_pos hz, if_neg (by simp [he])]
  · rw [validate_config_consistency, if_pos hauto, hex]
    dsimp only
    rw [if_neg (by simp [hz])]

/-- Closed instances of C1 via `c1_consistency_check`: the two spec
scenarios for `"J3B1M4"` and the auto-extraction into an empty
zipcode. -/
theorem c1_witness :
    (∃ e, validate_config_consistency
      [("zipcode", "J3B1M4"), ("lineupid", "CAN-OTAJ3B9Z9-DEFAULT")] = .error e)
    ∧ validate_config_consistency [("zipcode", "J3B1M4"), ("lineupid", "CAN-OTAJ3B1M4-DEFAULT")] =
        .ok ([("zipcode", "J3B1M4"), ("lineupid", "CAN-OTAJ3B1M4-DEFAULT")], [])
    ∧ validate_config_consistency [("zipcode", ""), ("lineupid", "CAN-OTAJ3B1M4-DEFAULT")] =
        .ok ([("zipcode", "J3B1M4"), ("lineupid", "CAN-OTAJ3B1M4-DEFAULT")],
          [("zipcode", "(empty) → J3B1M4 (extracted from CAN-OTAJ3B1M4-DEFAULT)")]) := by
  refine ⟨(c1_consistency_check _ "J3B 9Z9" (by decide) (by decide)).1 (by decide) (by decide),
    ?_, ?_⟩
  · exact (c1_consistency_check _ "J3B 1M4" (by decide) (by decide)).2.1 (by decide) (by decide)
  · exact (c1_consistency_check _ "J3B 1M4" (by decide) (by decide)).2.2 (by decide)

/-- C2 counterexample: a rewritten file that re-parses with root tag
`settings` and a nonzero setting count passes
`validate_migration_result` even though its declared version is not
`"5"`, and no rollback happens — so the version check is not among
the checks whose failure triggers rollback, contrary to the claim. -/
theorem c2_counterexample :
    (ParsedDoc.mk "settings" (some "4") 3).version ≠ some "5"
    ∧ validate_migration_result (some (ParsedDoc.mk "settings" (some "4") 3)) = true
    ∧ migrationFinalFile (fun d => d) (some (some (ParsedDoc.mk "settings" (some "5") 3)))
        (some (ParsedDoc.mk "settings" (some "4") 3)) =
      (some (ParsedDoc.mk "settings" (some "4") 3), false) :=
  ⟨by decide, by decide, by decide⟩

/-- C2 amended: `validate_migration_result` fails exactly when
re-parsing fails, the root tag is not `"settings"`, or the setting
count is zero (a declared version other than `"5"` only logs a
warning); when validation fails and a backup exists the backup is
restored verbatim as the final file, and when validation succeeds the
written file is kept; in both cases the flow returns instead of
aborting. -/
theorem c2_migration_validation :
    (∀ r : Option ParsedDoc, validate_migration_result r = true ↔
      ∃ d, r = some d ∧ d.rootTag = "settings" ∧ d.settingCount ≠ 0)
    ∧ (∀ (α : Type) (parse : α → Option ParsedDoc) (b w : α),
        validate_migration_result (parse w) = false →
        migrationFinalFile parse (some b) w = (b, true))
    ∧ (∀ (α : Type) (parse : α → Option ParsedDoc) (backup : Option α) (w : α),
        validate_migration_result (parse w) = true →
        migrationFinalFile parse backup w = (w, false)) := by
  refine ⟨fun r => ?_, fun α parse b w h => ?_, fun α parse backup w h => ?_⟩
  · cases r with
    | none => simp [validate_migration_result]
    | some d =>
      by_cases h1 : d.rootTag = "settings"
      · by_cases h2 : d.settingCount = 0
        · simp [validate_migration_result, h1, h2]
        · simp [validate_migration_result, h1, h2]
      · simp [validate_migration_result, h1]
  · simp only [migrationFinalFile]
    rw [if_neg (by simp [h])]
  · simp only [migrationFinalFile]
    rw [if_pos h]

/-- Closed instance of the amended C2 via `c2_migration_validation`:
a written file that fails to re-parse is rolled back to the backup. -/
theorem c2_witness :
    migrationFinalFile (fun d : Option ParsedDoc => d)
      (some (some (ParsedDoc.mk "settings" (some "5") 2))) none =
      (some (ParsedDoc.mk "settings" (some "5") 2), true) :=
  c2_migration_validation.2.1 (Option ParsedDoc) (fun d => d) _ _ (by decide)

/-! ## Claim C3 -/

/-- C3 counterexample: a file whose settings sit in the writer's
section order (`tvhoff, tvhurl, usern`) — exactly what a previous
migration would have produced — triggers a backup (the checker's
expected order is `tvhoff, usern, tvhurl` per `SETTINGS_ORDER`), yet
the rewrite reproduces the identical content: a backup is created
although the migration changes nothing, so "a backup file is created
if and only if the migration will change content" is false. -/
theorem c3_counterexample :
    migrate [("tvhoff", some "true"), ("tvhurl", some "127.0.0.1"), ("usern", some "bob")] =
      ([("tvhoff", some "true"), ("tvhurl", some "127.0.0.1"), ("usern", some "bob")], true) := by
  decide

/-- C3 amended: the backup step happens exactly when the removed
(deprecated or unknown) bucket is nonempty or the
`check_ordering_needed` comparison against the `SETTINGS_ORDER`-based
canonical order differs (this can create a backup with no content
change, because the writer emits the TVheadend fields in a different
order than `SETTINGS_ORDER`); and on an already-canonical file (all
ids valid, already in the checker's canonical order) the engine
changes nothing and creates no backup, on the second run as well. -/
theorem c3_backup_condition_and_idempotence :
    (∀ f : FileItems, (migrate f).2 = true ↔ migrationCondition f)
    ∧ (∀ f : FileItems,
        deprecatedIds (toDict f) ++ unknownIds (toDict f) = [] →
        check_ordering_needed (f.map Prod.fst)
          (((toDict f).filter (fun kv => VALID_IDS.contains kv.1)).map Prod.fst) = false →
        migrate f = (f, false) ∧ migrate (migrate f).1 = (f, false)) := by
  constructor
  · intro f
    rw [migrate]
    split
    · next h => simp [h]
    · next h => simpa using h
  · intro f h1 h2
    have hnc : ¬ migrationCondition f := by
      intro hc
      unfold migrationCondition at hc
      rcases hc with hc | hc
      · exact hc h1
      · rw [h2] at hc
        exact Bool.noConfusion hc
    have hm : migrate f = (f, false) := by
      rw [migrate, if_neg hnc]
    refine ⟨hm, ?_⟩
    rw [hm]
    exact hm

/-- Closed instance of the amended C3 via
`c3_backup_condition_and_idempotence`: running the engine twice on a
canonical file changes nothing and never backs up. -/
theorem c3_witness :
    migrate [("zipcode", some "92101"), ("days", some "7")] =
      ([("zipcode", some "92101"), ("days", some "7")], false)
    ∧ migrate (migrate [("zipcode", some "92101"), ("days", some "7")]).1 =
      ([("zipcode", some "92101"), ("days", some "7")], false) :=
  c3_backup_condition_and_idempotence.2 _ (by decide) (by decide)

/-! ## Claim C8 -/

theorem DEFAULTS_keys_nodup : (DEFAULTS.map Prod.fst).Nodup := by decide

/-- Pointwise round trip of one schema-conforming value through the
writer's text rendering, the version-5 parse, and
`validate_setting_type`. -/
theorem vst_toTextV (k : String) (v : Value) (hvalid : k ∈ VALID_IDS)
    (htype : typeOk (k, v) = true) (hstr : strOkV (k, v) = true) :
    validate_setting_type k (toTextV v) = Sum.inl v := by
  cases v with
  | VBool b =>
    have hbk : k ∈ BOOL_IDS := by simpa [typeOk] using htype
    cases b
    · rw [show toTextV (Value.VBool false) = some "False" from rfl,
        validate_setting_type, if_pos hvalid, if_pos hbk]
      rfl
    · rw [show toTextV (Value.VBool true) = some "True" from rfl,
        validate_setting_type, if_pos hvalid, if_pos hbk]
      rfl
  | VStr t =>
    have hbk : k ∉ BOOL_IDS := by simpa [typeOk] using htype
    have hs : t = "" ∨ ¬(pyStrip t = "") := by simpa [strOkV] using hstr
    rcases hs with rfl | hne
    · rw [show toTextV (Value.VStr "") = none from rfl,
        validate_setting_type, if_pos hvalid, if_neg hbk]
      rfl
    · rw [show toTextV (Value.VStr t) = some t from by simp [toTextV, hne],
        validate_setting_type, if_pos hvalid, if_neg hbk]
      rfl

/-- An entry of an ordered image is produced by its generator. -/
theorem mem_orderedImage {β : Type} (order : List String) (g : String → Option β)
    (kv : String × β) (h : kv ∈ orderedImage order g) : g kv.1 = some kv.2 := by
  induction order with
  | nil => simp [orderedImage] at h
  | cons a t ih =>
    cases hga : g a with
    | none =>
      rw [show orderedImage (a :: t) g = orderedImage t g from by
        simp [orderedImage, List.filterMap_cons, hga]] at h
      exact ih h
    | some v =>
      rw [show orderedImage (a :: t) g = (a, v) :: orderedImage t g from by
        simp [orderedImage, List.filterMap_cons, hga]] at h
      rcases List.mem_cons.mp h with h | h
      · rw [h]
        exact hga
      · exact ih h

/-- If every string value of the map is XML-safe, every element text
the writer emits is XML-safe (booleans render as `"True"`/`"False"`,
blank strings as empty elements). -/
theorem writtenTextsSafe_writeCleanG (m : List (String × Value))
    (hxml : ∀ kv ∈ m, xmlOkV kv = true) :
    writtenTextsSafe (writeCleanG toTextV m) = true := by
  rw [writtenTextsSafe]
  refine List.all_eq_true.mpr ?_
  intro kv hkv
  have hg := mem_orderedImage _ _ kv hkv
  cases hd : dget m kv.1 with
  | none =>
    rw [hd] at hg
    cases hg
  | some v =>
    rw [hd] at hg
    injection hg with hg
    have hmem := dget_mem m _ v hd
    have hx := hxml _ hmem
    rw [← hg]
    cases v with
    | VBool b => cases b <;> decide
    | VStr t =>
      rw [toTextV]
      split
      · simpa [xmlOkV] using hx
      · rfl

/-- C8 counterexample: two schema-conforming maps on which the
original round-trip claim fails.  The whitespace-only string `" "` is
written as an empty element and re-parses (after coercion) to `""`;
and the value `"a&b"` is interpolated into the document unescaped, so
re-parsing the written file raises `ParseError` (modelled as `none`)
instead of returning the map. -/
theorem c8_counterexample :
    roundTripSettings [("usern", Value.VStr " ")] = some [("usern", Sum.inl (Value.VStr ""))]
    ∧ Value.VStr "" ≠ Value.VStr " "
    ∧ roundTripSettings [("usern", Value.VStr "a&b")] = none :=
  ⟨by decide, by decide, by decide⟩

/-- C8 amended: for every settings map with distinct schema-valid
keys, schema-correct value types, and string values that are (i)
either empty or containing a non-whitespace character, and (ii)
XML-safe (no `&`, `<`, carriage return, control character or `]]>`,
since the writer interpolates values unescaped and such text makes
the re-parse raise or alter the value), writing with the canonical
writer, parsing the written file back, and applying the load-time
type coercion succeeds and yields the same map (as a dictionary:
lookup-equal at every key, order and comments ignored). -/
theorem c8_round_trip (m : List (String × Value)) (hnd : (m.map Prod.fst).Nodup)
    (hvalid : ∀ kv ∈ m, kv.1 ∈ VALID_IDS)
    (htype : ∀ kv ∈ m, typeOk kv = true)
    (hstr : ∀ kv ∈ m, strOkV kv = true)
    (hxml : ∀ kv ∈ m, xmlOkV kv = true) :
    roundTripSettings m =
      some ((toDict (writeCleanG toTextV m)).map
        (fun kv => (kv.1, validate_setting_type kv.1 kv.2)))
    ∧ ∀ k, dget ((toDict (writeCleanG toTextV m)).map
        (fun kv => (kv.1, validate_setting_type kv.1 kv.2))) k
        = (dget m k).map Sum.inl := by
  have hkeys : ((writeCleanG toTextV m).map Prod.fst).Nodup := writeCleanG_keys_nodup _ _ hnd
  constructor
  · rw [roundTripSettings, parseWritten, if_pos (writtenTextsSafe_writeCleanG m hxml)]
    rfl
  · intro k
    rw [toDict_of_keys_nodup _ hkeys]
    show dget ((writeCleanG toTextV m).map (fun kv => (kv.1, validate_setting_type kv.1 kv.2))) k
      = (dget m k).map Sum.inl
    rw [dget_mapPairs (fun id raw => validate_setting_type id raw) (writeCleanG toTextV m) k,
      dget_writeCleanG _ _ hnd k]
    cases hm : dget m k with
    | none => rfl
    | some v =>
      have hmem : (k, v) ∈ m := dget_mem m k v hm
      show some (validate_setting_type k (toTextV v)) = some (Sum.inl v)
      rw [vst_toTextV k v (hvalid _ hmem) (htype _ hmem) (hstr _ hmem)]

/-- Closed instance of the amended C8 via `c8_round_trip`: the parse
succeeds and the looked-up values round-trip. -/
theorem c8_witness :
    (roundTripSettings [("usern", Value.VStr "bob"), ("stitle", Value.VBool true)]).map
        (fun rt => dget rt "usern") = some (some (Sum.inl (Value.VStr "bob")))
    ∧ (roundTripSettings [("usern", Value.VStr "bob"), ("stitle", Value.VBool true)]).map
        (fun rt => dget rt "stitle") = some (some (Sum.inl (Value.VBool true)))
    ∧ (roundTripSettings [("usern", Value.VStr "bob"), ("stitle", Value.VBool true)]).map
        (fun rt => dget rt "zipcode") = some none := by
  obtain ⟨hparse, hlook⟩ := c8_round_trip
    [("usern", Value.VStr "bob"), ("stitle", Value.VBool true)]
    (by decide) (by decide) (by decide) (by decide) (by decide)
  refine ⟨?_, ?_, ?_⟩
  · rw [hparse]
    simp only [Option.map_some']
    rw [hlook "usern"]
    rfl
  · rw [hparse]
    simp only [Option.map_some']
    rw [hlook "stitle"]
    rfl
  · rw [hparse]
    simp only [Option.map_some']
    rw [hlook "zipcode"]
    rfl

/-! ## Claim C4 -/

/-- Every entry the defaults loop adds comes from the defaults table
and was missing (or `None`) in the dictionary the loop was given. -/
theorem smdAdds_spec :
    ∀ (ds : List (String × Value)) (s : InMem), ((ds.map Prod.fst).Nodup) →
      ∀ kv ∈ smdAdds s ds, kv ∈ ds ∧ missingOrNone s kv.1 = true := by
  intro ds
  induction ds with
  | nil =>
    intro s _ kv hkv
    simp [smdAdds] at hkv
  | cons d rest ih =>
    intro s hnd kv hkv
    rw [List.map_cons] at hnd
    obtain ⟨hhd, hnd'⟩ := List.nodup_cons.mp hnd
    obtain ⟨k0, v0⟩ := d
    rw [smdAdds] at hkv
    by_cases hm : missingOrNone s k0 = true
    · rw [if_pos hm] at hkv
      rcases List.mem_cons.mp hkv with h | h
      · exact ⟨by rw [h]; simp, by rw [h]; exact hm⟩
      · obtain ⟨hin, hmiss⟩ := ih (dinsert s k0 (some v0)) hnd' kv h
        refine ⟨List.mem_cons_of_mem _ hin, ?_⟩
        have hkm : kv.1 ∈ rest.map Prod.fst := List.mem_map_of_mem Prod.fst hin
        have hne : kv.1 ≠ k0 := fun e => hhd (e ▸ hkm)
        unfold missingOrNone at hmiss ⊢
        rw [dget_dinsert_ne s k0 kv.1 _ hne] at hmiss
        exact hmiss
    · rw [if_neg hm] at hkv
      obtain ⟨hin, hmiss⟩ := ih s hnd' kv hkv
      exact ⟨List.mem_cons_of_mem _ hin, hmiss⟩

/-- C4 counterexample: the fill-missing-defaults decision is computed
from the command-line-overridden in-memory map, not from the
pre-override file snapshot.  With a snapshot lacking `days` and a
command-line override `days = "14"`, the loop run on the overridden
map does not report `days` as missing, while run on the snapshot it
does — the two decisions differ, refuting the claim's "decides ...
from the pre-override file snapshot". -/
theorem c4_counterexample :
    ("days" ∈ (set_missing_defaults [("zipcode", some (Value.VStr "92101"))]).2.map Prod.fst)
    ∧ ("days" ∉ (set_missing_defaults
        (dinsert [("zipcode", some (Value.VStr "92101"))] "days"
          (some (Value.VStr "14")))).2.map Prod.fst)
    ∧ (set_missing_defaults
        (dinsert [("zipcode", some (Value.VStr "92101"))] "days"
          (some (Value.VStr "14")))).2.map Prod.fst ≠
      (set_missing_defaults [("zipcode", some (Value.VStr "92101"))]).2.map Prod.fst :=
  ⟨by decide, by decide, by decide⟩

/-- C4 amended: the defaults decision is taken on the map
`set_missing_defaults` is given (the post-override in-memory map in
`_set_defaults_and_update_file`), and every added entry is a schema
default that was missing or `None` there — so an override value is
never among the persisted defaults; when defaults are persisted,
`update_config_with_defaults` re-parses the file fresh, keeps the
original value of every valid key present in the file (well-formed
values assumed: `None` or non-whitespace), and appends exactly the
rendered schema default for keys absent from the file's valid
settings. -/
theorem c4_defaults_and_merge :
    (∀ s : InMem, ∀ kv ∈ (set_missing_defaults s).2,
      kv ∈ DEFAULTS ∧ missingOrNone s kv.1 = true)
    ∧ (∀ (f : FileItems) (new : List (String × Value)),
        (∀ kv ∈ f, renderRaw kv.2 = kv.2) →
        ∀ k v, dget ((toDict f).filter (fun kv => VALID_IDS.contains kv.1)) k = some v →
          dget (toDict (update_config_with_defaults f new)) k = some v)
    ∧ (∀ (f : FileItems) (new : List (String × Value)),
        (new.map Prod.fst).Nodup →
        ∀ k v, (k, v) ∈ new →
          dget ((toDict f).filter (fun kv => VALID_IDS.contains kv.1)) k = none →
          dget (toDict (update_config_with_defaults f new)) k
            = some (renderRaw (some (renderValue v)))) := by
  have hexnd : ∀ f : FileItems,
      (((toDict f).filter (fun kv => VALID_IDS.contains kv.1)).map Prod.fst).Nodup := by
    intro f
    exact (toDict_keys_nodup f).sublist ((List.filter_sublist (toDict f)).map Prod.fst)
  refine ⟨fun s kv hkv => ?_, fun f new hgood k v h => ?_, fun f new hnodup k v hmem habs => ?_⟩
  · exact smdAdds_spec DEFAULTS s DEFAULTS_keys_nodup kv hkv
  · have hmnd := mergeNew_keys_nodup _ new (hexnd f)
    have hmerged := mergeNew_preserves _ new k v h
    rw [update_config_with_defaults,
      toDict_of_keys_nodup _ (writeCleanG_keys_nodup _ _ hmnd),
      dget_writeCleanG _ _ hmnd k, hmerged]
    have hvmem : (k, v) ∈ (toDict f).filter (fun kv => VALID_IDS.contains kv.1) :=
      dget_mem _ _ _ h
    have hmem2 : (k, v) ∈ f := mem_toDict _ _ (List.mem_filter.mp hvmem).1
    show some (renderRaw v) = some v
    rw [hgood (k, v) hmem2]
  · have hmnd := mergeNew_keys_nodup _ new (hexnd f)
    have hmerged := dget_mergeNew_new _ new k v hnodup hmem habs
    rw [update_config_with_defaults,
      toDict_of_keys_nodup _ (writeCleanG_keys_nodup _ _ hmnd),
      dget_writeCleanG _ _ hmnd k, hmerged]
    rfl

/-- Closed instance of the amended C4 via `c4_defaults_and_merge`: an
existing valid file value is preserved, a genuinely new default is
appended in rendered form, and the entries added for a map already
holding `days` are all schema defaults. -/
theorem c4_witness :
    dget (toDict (update_config_with_defaults
      [("zipcode", some "92101"), ("junk", some "x")] [("days", Value.VStr "1")])) "zipcode"
      = some (some "92101")
    ∧ dget (toDict (update_config_with_defaults
        [("zipcode", some "92101"), ("junk", some "x")] [("days", Value.VStr "1")])) "days"
      = some (renderRaw (some (renderValue (Value.VStr "1"))))
    ∧ ∀ kv ∈ (set_missing_defaults
        [("zipcode", some (Value.VStr "92101")), ("days", some (Value.VStr "14"))]).2,
        kv ∈ DEFAULTS := by
  refine ⟨?_, ?_, fun kv hkv => ?_⟩
  · exact c4_defaults_and_merge.2.1 [("zipcode", some "92101"), ("junk", some "x")]
      [("days", Value.VStr "1")] (by decide) "zipcode" (some "92101") (by decide)
  · exact c4_defaults_and_merge.2.2 [("zipcode", some "92101"), ("junk", some "x")]
      [("days", Value.VStr "1")] (by decide) "days" (Value.VStr "1") (by decide) (by decide)
  · exact (c4_defaults_and_merge.1 _ kv hkv).1

end GN
